import Mathlib

/-!
Shallow embedding of the core of the `wert` finance sidecar
(`apps/finance`): vendor health records (`data_sources/base.py`),
the fallback manager (`data_sources/manager.py`), the in-memory TTL
cache (`cache_manager.py`) and the sliding-window rate limiter
(`data_sources/rate_limiter.py`), together with theorems settling the
specification claims about them.

Wall-clock instants are modelled as `Nat` (health timestamps) or `Rat`
(rate-limiter timestamps, which carry fractional seconds in the
source); stateful Python objects become explicit state passing.
-/

namespace Wert

/-- Health record of one data source (`base.py`, `DataSourceHealth`). -/
structure Health where
  available : Bool
  last_success : Option Nat
  last_failure : Option Nat
  consecutive_failures : Nat
  last_error : Option String
  deriving DecidableEq, Repr

/-- A fresh health record, as built in `DataSource.__init__`
(`DataSourceHealth(available=True)`). -/
def Health.init : Health :=
  { available := true, last_success := none, last_failure := none,
    consecutive_failures := 0, last_error := none }

/-- `DataSource.record_success` (`base.py` lines 76-81). -/
def record_success (now : Nat) (h : Health) : Health :=
  { h with available := true, last_success := some now,
           consecutive_failures := 0, last_error := none }

/-- `DataSource.record_failure` (`base.py` lines 83-91): bump the failure
count, stamp the error, and trip `available` at three consecutive
failures. -/
def record_failure (now : Nat) (e : String) (h : Health) : Health :=
  let h2 : Health :=
    { h with last_failure := some now,
             consecutive_failures := h.consecutive_failures + 1,
             last_error := some e }
  if 3 ≤ h2.consecutive_failures then { h2 with available := false } else h2

/-- One `record_success` / `record_failure` call on a health record. -/
inductive HealthEvent where
  | success (now : Nat)
  | failure (now : Nat) (e : String)
  deriving DecidableEq, Repr

/-- Apply one health event. -/
def applyEvent (ev : HealthEvent) (h : Health) : Health :=
  match ev with
  | .success now => record_success now h
  | .failure now e => record_failure now e h

/-- Apply a sequence of health events, oldest first. -/
def applyEvents (evs : List HealthEvent) (h : Health) : Health :=
  evs.foldl (fun acc ev => applyEvent ev acc) h

/-- What one manager-level call of a vendor fetch method does:
return a value (possibly `none`, Python `None`) or raise. -/
inductive Outcome (α : Type) where
  | returns (r : Option α)
  | raises (e : String)
  deriving DecidableEq, Repr

/-- A data source as the manager sees it for one fetch round: name,
priority, current health, and the behaviour of the invoked fetch method
(which may update the health of the source itself, as the concrete sources do
via `record_success` / `record_failure`). -/
structure Vendor (α : Type) where
  name : String
  priority : Nat
  health : Health
  call : Health → Outcome α × Health

/-- The manager-visible outcome of the call of a vendor in its current state. -/
def outcomeOf {α : Type} (v : Vendor α) : Outcome α :=
  (v.call v.health).1

/-- The health of the vendor after its call runs in its current state. -/
def healthAfter {α : Type} (v : Vendor α) : Health :=
  (v.call v.health).2

/-- The vendor with its health replaced by the post-call health. -/
def updateV {α : Type} (v : Vendor α) : Vendor α :=
  { v with health := healthAfter v }

/-- `True` when the outcome is a miss at the manager level: either the
call returned `None` or it raised. -/
def isFailure {α : Type} : Outcome α → Bool
  | .returns none => true
  | .raises _ => true
  | .returns (some _) => false

/-- `True` when the call returned a non-`None` result. -/
def isSuccess {α : Type} : Outcome α → Bool
  | .returns (some _) => true
  | _ => false

/-- The loop of `DataSourceManager._fetch_with_fallback`
(`manager.py` lines 70-99): try each vendor in order, short-circuit on
the first non-`None` result, remember the last raised error, and after
the loop re-raise it if present, else return `(None, "Unknown")`.
Returns the manager result together with the updated vendor list. -/
def fetchLoop {α : Type} :
    List (Vendor α) → Option String →
    Except String (Option α × String) × List (Vendor α)
  | [], lastError =>
    (match lastError with
     | some e => .error e
     | none => .ok (none, "Unknown"), [])
  | v :: rest, lastError =>
    match v.call v.health with
    | (.returns (some r), h2) =>
      (.ok (some r, v.name), { v with health := h2 } :: rest)
    | (.returns none, h2) =>
      let p := fetchLoop rest lastError
      (p.1, { v with health := h2 } :: p.2)
    | (.raises e, h2) =>
      let p := fetchLoop rest (some e)
      (p.1, { v with health := h2 } :: p.2)

/-- The health reset applied by the manager when no source is available
(`manager.py` lines 65-67): `available = True`,
`consecutive_failures = 0`; the other fields are untouched. -/
def resetHealth (h : Health) : Health :=
  { h with available := true, consecutive_failures := 0 }

/-- Reset the health record of one vendor. -/
def resetVendor {α : Type} (v : Vendor α) : Vendor α :=
  { v with health := resetHealth v.health }

/-- `DataSourceManager._get_available_sources` (`manager.py` line 47). -/
def availableSources {α : Type} (sources : List (Vendor α)) : List (Vendor α) :=
  sources.filter (fun s => s.health.available)

/-- `DataSourceManager._fetch_with_fallback` (`manager.py` lines 49-99):
compute the working set of available sources; if it is empty, reset
the health of every source and use the full list; then run the fallback
loop. -/
def fetch_with_fallback {α : Type} (sources : List (Vendor α)) :
    Except String (Option α × String) × List (Vendor α) :=
  let avail := availableSources sources
  if avail.isEmpty then
    fetchLoop (sources.map resetVendor) none
  else
    fetchLoop avail none

/-- `DataSourceManager._initialize_sources` (`manager.py` lines 32-43):
sort the registered sources ascending by priority (Python `list.sort`
is stable; so is `List.mergeSort`). -/
def initialize_sources {α : Type} (registered : List (Vendor α)) :
    List (Vendor α) :=
  registered.mergeSort (fun a b => a.priority ≤ b.priority)

/-! ### Dimension fetch (`manager.py`, `fetch_dimensions`) -/

/-- `DimensionData` (`base.py` lines 30-35). -/
structure DimensionData where
  symbol : String
  name : String
  asset_type : String
  deriving DecidableEq, Repr

/-- A data source as `fetch_dimensions` sees it: its two list methods
(`fetch_stock_list`, `fetch_fund_list`), each of which may update the
health of the source itself and either return a list or raise. -/
structure DimVendor (δ : Type) where
  name : String
  priority : Nat
  health : Health
  stockCall : Health → Except String (List δ) × Health
  fundCall : Health → Except String (List δ) × Health

/-- The loop of `DataSourceManager.fetch_dimensions`
(`manager.py` lines 141-166): for each vendor fetch the stock list then
the fund list, concatenate them, short-circuit on a non-empty combined
list; any raise is caught and the loop continues; after the loop return
`([], "Unknown")` (never raising). -/
def dimLoop {δ : Type} :
    List (DimVendor δ) → (List δ × String) × List (DimVendor δ)
  | [] => (([], "Unknown"), [])
  | v :: rest =>
    match v.stockCall v.health with
    | (.error _, h1) =>
      let p := dimLoop rest
      (p.1, { v with health := h1 } :: p.2)
    | (.ok stocks, h1) =>
      match v.fundCall h1 with
      | (.error _, h2) =>
        let p := dimLoop rest
        (p.1, { v with health := h2 } :: p.2)
      | (.ok funds, h2) =>
        let all := stocks ++ funds
        if all.isEmpty then
          let p := dimLoop rest
          (p.1, { v with health := h2 } :: p.2)
        else
          ((all, v.name), { v with health := h2 } :: rest)

/-- The working set used by `fetch_dimensions`: available sources, or
the full list when none is available (`manager.py` lines 135-139 — note
there is no health reset on this path, unlike `_fetch_with_fallback`). -/
def dimWorkingSet {δ : Type} (sources : List (DimVendor δ)) :
    List (DimVendor δ) :=
  let avail := sources.filter (fun s => s.health.available)
  if avail.isEmpty then sources else avail

/-- `DataSourceManager.fetch_dimensions` (`manager.py` lines 128-166). -/
def fetch_dimensions {δ : Type} (sources : List (DimVendor δ)) :
    (List δ × String) × List (DimVendor δ) :=
  dimLoop (dimWorkingSet sources)

/-- The combined list a vendor would contribute in its current state:
`some (stocks ++ funds)` when both list calls return and the
concatenation is non-empty, `none` when either call raises or the
concatenation is empty. -/
def dimResult {δ : Type} (v : DimVendor δ) : Option (List δ) :=
  match v.stockCall v.health with
  | (.error _, _) => none
  | (.ok stocks, h1) =>
    match v.fundCall h1 with
    | (.error _, _) => none
    | (.ok funds, _) =>
      if (stocks ++ funds).isEmpty then none else some (stocks ++ funds)

/-- `True` when the vendor yields a non-empty combined list. -/
def dimSucceeds {δ : Type} (v : DimVendor δ) : Bool :=
  (dimResult v).isSome

/-! ### Concrete vendor fetch wrappers
(`tushare_source.py` / `akshare_source.py`) -/

/-- The async fetch wrapper of both concrete sources for single-value
fetches (`tushare_source.py` lines 162-184, `akshare_source.py` lines
138-158): run the synchronous fetch; on an exception call
`record_failure` and return `None`; on a result call `record_success`
only when the result is non-`None` (`if result:`). The wrapper never
raises to the manager. -/
def sourceFetchValue {α : Type} (sync : Except String (Option α))
    (now : Nat) (h : Health) : Outcome α × Health :=
  match sync with
  | .error e => (.returns none, record_failure now e h)
  | .ok r =>
    (.returns r, if r.isSome then record_success now h else h)

/-- The async fetch wrapper of both concrete sources for list fetches
(`tushare_source.py` lines 186-208, `akshare_source.py` lines 160-180):
run the synchronous fetch; on an exception call `record_failure` and
return `[]` (the wrapper never raises to the manager); otherwise call
`record_success` unconditionally — even for an empty list — and return
the list. -/
def sourceFetchList {δ : Type} (sync : Except String (List δ))
    (now : Nat) (h : Health) : List δ × Health :=
  match sync with
  | .error e => ([], record_failure now e h)
  | .ok r => (r, record_success now h)

/-- Health of a `TushareDataSource` constructed without a token
(`tushare_source.py` lines 23-29): `available` is forced to `False`,
the other fields keep their initial values. -/
def tushareNoTokenHealth : Health :=
  { Health.init with available := false }

/-- `TushareDataSource._sync_fetch_stock_list` with `self._pro = None`
(`tushare_source.py` lines 112-115): returns `[]` without raising. -/
def tushareNoTokenSyncStockList : Except String (List DimensionData) :=
  .ok []

/-! ### In-memory TTL cache (`cache_manager.py`, `MultiLayerCache`) -/

/-- A local wall-clock instant as the cache reads it: weekday
(`datetime.weekday()`, 0 = Monday … 6 = Sunday) and time of day.
Sub-second precision is immaterial to the comparisons involved. -/
structure LocalTime where
  weekday : Nat
  hour : Nat
  minute : Nat
  second : Nat
  deriving DecidableEq, Repr

/-- Seconds since local midnight. -/
def secondsOfDay (t : LocalTime) : Nat :=
  t.hour * 3600 + t.minute * 60 + t.second

/-- `MultiLayerCache._is_trading_hours` (`cache_manager.py` lines
30-56): weekdays only, morning session 9:30-11:30 and afternoon
session 13:00-15:00, both boundaries inclusive. -/
def _is_trading_hours (t : LocalTime) : Bool :=
  if 5 ≤ t.weekday then false
  else
    ((9 * 3600 + 30 * 60 ≤ secondsOfDay t
        && secondsOfDay t ≤ 11 * 3600 + 30 * 60) ||
     (13 * 3600 ≤ secondsOfDay t && secondsOfDay t ≤ 15 * 3600))

/-- `MultiLayerCache._get_ttl` (`cache_manager.py` lines 58-80). -/
def _get_ttl (t : LocalTime) (cache_type : String) : Nat :=
  let is_trading := _is_trading_hours t
  if cache_type = "stock" then (if is_trading then 2 * 60 else 30 * 60)
  else if cache_type = "fund" then
    (if is_trading then 30 * 60 else 6 * 60 * 60)
  else if cache_type = "dim" then 6 * 60 * 60
  else 5 * 60

/-- The memory cache `self._memory_cache : Dict[str, (value, expire_at)]`,
modelled as an association list with at most one entry per key (the
insert below preserves this, matching dict-assignment semantics);
expiry instants are absolute seconds. -/
abbrev MemoryCache (α : Type) := List (String × α × Nat)

/-- Dict lookup `self._memory_cache[key]`. -/
def cacheFind {α : Type} (c : MemoryCache α) (key : String) :
    Option (α × Nat) :=
  (c.find? (fun e => e.1 == key)).map (fun e => e.2)

/-- Dict deletion `del self._memory_cache[key]`. -/
def cacheErase {α : Type} (c : MemoryCache α) (key : String) :
    MemoryCache α :=
  c.filter (fun e => !(e.1 == key))

/-- `MultiLayerCache.get_memory` (`cache_manager.py` lines 84-94):
return the value while `now < expire_at`; otherwise delete the entry
and report a miss. Returns the result with the updated cache. -/
def get_memory {α : Type} (now : Nat) (c : MemoryCache α) (key : String) :
    Option α × MemoryCache α :=
  match cacheFind c key with
  | none => (none, c)
  | some (v, expire_at) =>
    if now < expire_at then (some v, c) else (none, cacheErase c key)

/-- `MultiLayerCache.set_memory` (`cache_manager.py` lines 96-102):
store `(value, now + ttl)` under `key`, the TTL computed from the
category and the trading session (dict assignment replaces any prior
entry for the key). -/
def set_memory {α : Type} (t : LocalTime) (now : Nat) (c : MemoryCache α)
    (key : String) (v : α) (cache_type : String) : MemoryCache α :=
  let ttl := _get_ttl t cache_type
  (key, v, now + ttl) :: cacheErase c key

/-- `MultiLayerCache.get_stats` entry count (`memory_cache_size`,
`cache_manager.py` lines 178-189). -/
def cacheStatsSize {α : Type} (c : MemoryCache α) : Nat := c.length

/-- Modelled from the spec: `isTradingSession(now)` is true iff `now`
falls on a weekday (Mon-Fri) and local time is within `[09:30,11:30]`
or `[13:00,15:00]`, boundaries inclusive. -/
def specTradingSession (t : LocalTime) : Bool :=
  (t.weekday ≤ 4) &&
  ((9 * 3600 + 30 * 60 ≤ secondsOfDay t
      && secondsOfDay t ≤ 11 * 3600 + 30 * 60) ||
   (13 * 3600 ≤ secondsOfDay t && secondsOfDay t ≤ 15 * 3600))

/-- Modelled from the spec: the TTL policy table in seconds (stock
120/1800, fund 1800/21600, dim 21600, default 300). -/
def specTTL (cache_type : String) (inSession : Bool) : Nat :=
  if cache_type = "stock" then (if inSession then 120 else 1800)
  else if cache_type = "fund" then (if inSession then 1800 else 21600)
  else if cache_type = "dim" then 21600
  else 300

/-! ### Sliding-window rate limiter (`rate_limiter.py`) -/

/-- `TUSHARE_RATE_LIMITS` (`rate_limiter.py` lines 20-33). -/
def TUSHARE_RATE_LIMITS : List (String × Nat) :=
  [("daily", 200), ("adj_factor", 200), ("daily_basic", 200),
   ("fund_nav", 200), ("fund_basic", 200), ("stock_basic", 200),
   ("trade_cal", 500), ("default", 100)]

/-- `self._limits.get(name)` on the configured limit table. -/
def limitsGet (limits : List (String × Nat)) (api_name : String) :
    Option Nat :=
  (limits.find? (fun e => e.1 == api_name)).map (fun e => e.2)

/-- The base limit `self._limits.get(api_name, self._limits.get("default", 100))`
(`rate_limiter.py` line 60). -/
def baseLimit (limits : List (String × Nat)) (api_name : String) : Nat :=
  match limitsGet limits api_name with
  | some l => l
  | none =>
    match limitsGet limits "default" with
    | some d => d
    | none => 100

/-- `TushareRateLimiter._get_limit` (`rate_limiter.py` lines 58-61):
`int(base_limit * 0.8)`; for the non-negative configured limits this is
the floor of `base * 0.8`, i.e. `base * 8 / 10` in `Nat`. -/
def _get_limit (limits : List (String × Nat)) (api_name : String) : Nat :=
  baseLimit limits api_name * 8 / 10

/-- Modelled from the spec: `capacity = floor(configuredLimit × 0.8)`. -/
def specCapacity (configuredLimit : Nat) : Nat :=
  Nat.floor ((configuredLimit : ℚ) * (8 / 10))

/-- `TushareRateLimiter._clean_old_requests` (`rate_limiter.py` lines
69-73) at the default 60-second window: pop entries from the front
while `now - queue[0] > 60`. Timestamps are rationals (Python floats
carry fractional seconds). -/
def _clean_old_requests (now : Rat) : List Rat → List Rat
  | [] => []
  | t0 :: rest =>
    if 60 < now - t0 then _clean_old_requests now rest else t0 :: rest

/-- What one iteration of the `while True` body of
`TushareRateLimiter.wait` does. -/
inductive WaitStep where
  | grant (queue : List Rat)
  | sleep (duration : Rat)
  deriving DecidableEq, Repr

/-- One iteration of the loop in `TushareRateLimiter.wait`
(`rate_limiter.py` lines 88-109): purge the window, admit (appending
`now`) when below the limit, otherwise compute the sleep duration
`60 - (now - oldest) + 0.1` from the oldest entry. The empty-queue
fallthrough is unreachable for a positive limit (Python would raise
`IndexError` on `queue[0]` there). -/
def waitStep (limit : Nat) (now : Rat) (queue : List Rat) : WaitStep :=
  let q := _clean_old_requests now queue
  if q.length < limit then .grant (q ++ [now])
  else
    match q with
    | [] => .sleep 0
    | oldest :: _ => .sleep (60 - (now - oldest) + 1 / 10)

/-- The full `wait` loop, fuelled: sleep advances the clock by the
computed duration (when positive) and re-evaluates from the purge step;
`none` means the fuel ran out. -/
def waitRun (limit : Nat) (fuel : Nat) (now : Rat) (queue : List Rat) :
    Option (List Rat) :=
  match fuel with
  | 0 => none
  | fuel + 1 =>
    match waitStep limit now queue with
    | .grant q => some q
    | .sleep d =>
      if 0 < d then waitRun limit fuel (now + d) queue
      else waitRun limit fuel now queue

/-- The queue after `k` back-to-back `wait` calls all arriving at time
`t`: `some` when no call suspended, `none` as soon as one would
sleep. -/
def callsAt (limit : Nat) (t : Rat) : Nat → Option (List Rat)
  | 0 => some []
  | k + 1 =>
    match callsAt limit t k with
    | none => none
    | some q =>
      match waitStep limit t q with
      | .grant q2 => some q2
      | .sleep _ => none

/-! ### Concrete instances used in the scenario claims -/

/-- Vendor A of the fallback scenario: priority 1, fresh health, its
underlying transport raises, absorbed by the concrete-source wrapper. -/
def vendorA : Vendor Nat :=
  { name := "A", priority := 1, health := Health.init,
    call := fun h => sourceFetchValue (.error "boom") 0 h }

/-- Vendor B of the fallback scenario: priority 2, fresh health,
returns the value `x`. -/
def vendorB (x : Nat) : Vendor Nat :=
  { name := "B", priority := 2, health := Health.init,
    call := fun h => sourceFetchValue (.ok (some x)) 0 h }

/-- A vendor whose fetch raises at the manager boundary, leaving its
health unchanged. -/
def vendorRaise : Vendor Nat :=
  { name := "R", priority := 1, health := Health.init,
    call := fun h => (.raises "boom", h) }

/-- A vendor whose fetch returns `None` without raising, leaving its
health unchanged. -/
def vendorNone : Vendor Nat :=
  { name := "N", priority := 2, health := Health.init,
    call := fun h => (.returns none, h) }

/-- A health record that has tripped the failure threshold. -/
def unavailableHealth : Health :=
  { Health.init with available := false, consecutive_failures := 3 }

/-- An unavailable vendor that would return `x` if re-attempted. -/
def vendorDown (x : Nat) : Vendor Nat :=
  { name := "D", priority := 1, health := unavailableHealth,
    call := fun h => sourceFetchValue (.ok (some x)) 0 h }

/-- A sample stock dimension row. -/
def dimStockRow : DimensionData :=
  { symbol := "sh600519", name := "Kweichow Moutai", asset_type := "STOCK" }

/-- A sample fund dimension row. -/
def dimFundRow : DimensionData :=
  { symbol := "510300.SH", name := "CSI 300 ETF", asset_type := "FUND" }

/-- A dimension vendor whose stock-list call raises. -/
def dimVendorRaise : DimVendor DimensionData :=
  { name := "R", priority := 1, health := Health.init,
    stockCall := fun h => (.error "boom", record_failure 0 "boom" h),
    fundCall := fun h => (.ok [], record_success 0 h) }

/-- A dimension vendor returning one stock row and one fund row. -/
def dimVendorGood : DimVendor DimensionData :=
  { name := "G", priority := 2, health := Health.init,
    stockCall := fun h => (.ok [dimStockRow], record_success 0 h),
    fundCall := fun h => (.ok [dimFundRow], record_success 0 h) }

/-- A dimension vendor returning empty lists from both calls. -/
def dimVendorEmpty : DimVendor DimensionData :=
  { name := "E", priority := 3, health := Health.init,
    stockCall := fun h => (.ok [], record_success 0 h),
    fundCall := fun h => (.ok [], record_success 0 h) }

/-- An unavailable dimension vendor whose stock-list call raises. -/
def dimVendorDownRaise : DimVendor DimensionData :=
  { dimVendorRaise with health := unavailableHealth }

/-- A weekday in-session instant (Monday 10:00:00). -/
def tradingInstant : LocalTime :=
  { weekday := 0, hour := 10, minute := 0, second := 0 }

/-- The last raised error captured while iterating the listed vendors
in their current states (the `last_error` variable of
`_fetch_with_fallback`). -/
def lastErrorOf {α : Type} : List (Vendor α) → Option String → Option String
  | [], e0 => e0
  | v :: rest, e0 =>
    match outcomeOf v with
    | .raises e => lastErrorOf rest (some e)
    | _ => lastErrorOf rest e0

/-! ## Theorems -/

/-- The availability invariant holds after any single health event,
whatever the prior state. -/
theorem applyEvent_invariant (ev : HealthEvent) (h : Health)
    (h3 : 3 ≤ (applyEvent ev h).consecutive_failures) :
    (applyEvent ev h).available = false := by
  cases ev with
  | success now =>
    simp [applyEvent, record_success] at h3
  | failure now e =>
    by_cases hc : 3 ≤ h.consecutive_failures + 1
    · simp [applyEvent, record_failure, hc]
    · simp [applyEvent, record_failure, hc] at h3

/-- The availability invariant holds after any non-empty sequence of
health events. -/
theorem applyEvents_invariant (evs : List HealthEvent) (h : Health)
    (hne : evs ≠ [])
    (h3 : 3 ≤ (applyEvents evs h).consecutive_failures) :
    (applyEvents evs h).available = false := by
  induction evs generalizing h with
  | nil => exact absurd rfl hne
  | cons ev rest ih =>
    cases rest with
    | nil => exact applyEvent_invariant ev h h3
    | cons ev2 rest2 =>
      exact ih (applyEvent ev h) (by simp) h3

/-- C3: after each `record_success` / `record_failure` call in any
sequence, `consecutive_failures ≥ 3` implies `available = false`; and a
single `record_success` resets `consecutive_failures` to 0, sets
`available` to true and clears `last_error`. -/
theorem claim_C3 (h : Health) (evs : List HealthEvent) (i : Nat)
    (now : Nat) (hi : i < evs.length)
    (h3 : 3 ≤ (applyEvents (evs.take (i + 1)) h).consecutive_failures) :
    (applyEvents (evs.take (i + 1)) h).available = false
    ∧ record_success now h =
        { h with available := true, last_success := some now,
                 consecutive_failures := 0, last_error := none } := by
  refine ⟨applyEvents_invariant _ h ?_ h3, rfl⟩
  have : 0 < (evs.take (i + 1)).length := by
    simp only [List.length_take]
    omega
  exact List.ne_nil_of_length_pos this

/-- C3 witness: a failing vendor trips the invariant after three
failures, and one success resets the record. -/
theorem claim_C3_witness :
    (applyEvents (List.take 3
        [HealthEvent.failure 1 "a", HealthEvent.failure 2 "b",
         HealthEvent.failure 3 "c"]) Health.init).available = false
    ∧ record_success 9 Health.init =
        { Health.init with available := true, last_success := some 9,
                           consecutive_failures := 0, last_error := none } :=
  claim_C3 Health.init
    [HealthEvent.failure 1 "a", HealthEvent.failure 2 "b",
     HealthEvent.failure 3 "c"] 2 9 (by decide) (by decide)

/-- C10: a list fetch that completes without an exception calls
`record_success` unconditionally — also for an empty list — so the
vendor ends available with zero consecutive failures; in particular a
`TushareDataSource` constructed without a token (hence unavailable)
returns `[]` from its stock-list fetch and is re-marked available. -/
theorem claim_C10 {δ : Type} (l : List δ) (now : Nat) (h : Health) :
    sourceFetchList (.ok l) now h = (l, record_success now h)
    ∧ (sourceFetchList (.ok l) now h).2.available = true
    ∧ (sourceFetchList (.ok l) now h).2.consecutive_failures = 0
    ∧ sourceFetchList tushareNoTokenSyncStockList now tushareNoTokenHealth
        = ([], record_success now tushareNoTokenHealth)
    ∧ (sourceFetchList tushareNoTokenSyncStockList now
        tushareNoTokenHealth).2.available = true := by
  exact ⟨rfl, rfl, rfl, rfl, rfl⟩

/-- C6: the TTL written by the cache matches the policy table of the
spec as a function of category and trading session, and the
trading-session test of the code agrees with the session predicate of
the spec
(weekday and within [09:30,11:30] or [13:00,15:00], inclusive). -/
theorem claim_C6 (t : LocalTime) (cache_type : String) :
    _is_trading_hours t = specTradingSession t
    ∧ _get_ttl t cache_type = specTTL cache_type (specTradingSession t) := by
  have hsession : _is_trading_hours t = specTradingSession t := by
    unfold _is_trading_hours specTradingSession
    by_cases h5 : 5 ≤ t.weekday
    · have h4 : ¬ (t.weekday ≤ 4) := by omega
      simp [h5, h4]
    · have h4 : t.weekday ≤ 4 := by omega
      simp [h5, h4]
  refine ⟨hsession, ?_⟩
  simp only [_get_ttl, specTTL, hsession]

/-- Unrolling `fetchLoop` across a prefix of vendors that all miss
(return `None` or raise): each gets its health update, the last raised
error is threaded, and the loop continues past them. -/
theorem fetchLoop_skips_misses {α : Type} (ws₁ : List (Vendor α)) :
    ∀ (rest : List (Vendor α)) (e0 : Option String),
      (∀ u ∈ ws₁, isFailure (outcomeOf u) = true) →
      fetchLoop (ws₁ ++ rest) e0 =
        ((fetchLoop rest (lastErrorOf ws₁ e0)).1,
         ws₁.map updateV ++ (fetchLoop rest (lastErrorOf ws₁ e0)).2) := by
  induction ws₁ with
  | nil =>
    intro rest e0 _
    simp [lastErrorOf]
  | cons u ws ih =>
    intro rest e0 hfail
    have hu : isFailure (outcomeOf u) = true := hfail u (by simp)
    have htail : ∀ v ∈ ws, isFailure (outcomeOf v) = true :=
      fun v hv => hfail v (List.mem_cons_of_mem u hv)
    rcases hc : u.call u.health with ⟨o, h2⟩
    have ho : outcomeOf u = o := by simp [outcomeOf, hc]
    cases o with
    | returns r =>
      cases r with
      | none =>
        simp only [List.cons_append, fetchLoop, hc, List.append_eq]
        rw [ih rest e0 htail]
        simp [lastErrorOf, ho, updateV, healthAfter, hc]
      | some rr =>
        rw [ho] at hu
        simp [isFailure] at hu
    | raises e =>
      simp only [List.cons_append, fetchLoop, hc, List.append_eq]
      rw [ih rest (some e) htail]
      simp [lastErrorOf, ho, updateV, healthAfter, hc]

/-- The fallback loop surfaces `.error e` exactly when no vendor
returned a non-`None` result and `e` is the last raised error. -/
theorem fetchLoop_error_iff {α : Type} (ws : List (Vendor α)) :
    ∀ (e0 : Option String) (e : String),
      (fetchLoop ws e0).1 = .error e ↔
        (∀ v ∈ ws, isSuccess (outcomeOf v) = false)
        ∧ lastErrorOf ws e0 = some e := by
  induction ws with
  | nil =>
    intro e0 e
    cases e0 <;> simp [fetchLoop, lastErrorOf]
  | cons u ws ih =>
    intro e0 e
    rcases hc : u.call u.health with ⟨o, h2⟩
    have ho : outcomeOf u = o := by simp [outcomeOf, hc]
    cases o with
    | returns r =>
      cases r with
      | none =>
        simp only [fetchLoop, hc]
        rw [show ((fetchLoop ws e0).1, ({ u with health := h2 } :
            Vendor α) :: (fetchLoop ws e0).2).1 = (fetchLoop ws e0).1
          from rfl]
        rw [ih e0 e]
        simp [ho, isSuccess, lastErrorOf]
      | some rr =>
        simp only [fetchLoop, hc]
        simp [ho, isSuccess]
    | raises e2 =>
      simp only [fetchLoop, hc]
      rw [show ((fetchLoop ws (some e2)).1, ({ u with health := h2 } :
          Vendor α) :: (fetchLoop ws (some e2)).2).1
            = (fetchLoop ws (some e2)).1 from rfl]
      rw [ih (some e2) e]
      simp [ho, isSuccess, lastErrorOf]

/-- When every vendor returns `None` without raising, no error is
captured. -/
theorem lastErrorOf_all_none {α : Type} (ws : List (Vendor α)) :
    ∀ e0, (∀ v ∈ ws, outcomeOf v = .returns none) →
      lastErrorOf ws e0 = e0 := by
  induction ws with
  | nil => intro e0 _; rfl
  | cons u ws ih =>
    intro e0 hall
    have hu := hall u (by simp)
    simp only [lastErrorOf, hu]
    exact ih e0 (fun v hv => hall v (List.mem_cons_of_mem u hv))

/-- C1: the manager sorts sources ascending by priority; with a
non-empty working set the fetch iterates exactly that set; the first
vendor with a non-`None` result short-circuits the loop, returning
`(result, vendor.name)` with every later vendor untouched, and vendors
that miss or raise before it do not abort the loop; concretely, with
vendor A (priority 1) whose transport raises and vendor B (priority 2)
returning `x`, the fetch returns `(x, "B")` and the
`consecutive_failures` increases by 1. -/
theorem claim_C1 {α : Type} (registered sources ws₁ ws₂ : List (Vendor α))
    (v : Vendor α) (r : α) (h2 : Health) (x : Nat)
    (hfail : ∀ u ∈ ws₁, isFailure (outcomeOf u) = true)
    (hv : v.call v.health = (.returns (some r), h2))
    (hne : (availableSources sources).isEmpty = false) :
    List.Pairwise (fun a b : Vendor α => a.priority ≤ b.priority)
      (initialize_sources registered)
    ∧ fetch_with_fallback sources = fetchLoop (availableSources sources) none
    ∧ (∀ e0, fetchLoop (ws₁ ++ v :: ws₂) e0 =
        (.ok (some r, v.name),
         ws₁.map updateV ++ { v with health := h2 } :: ws₂))
    ∧ (fetch_with_fallback [vendorA, vendorB x]).1 = .ok (some x, "B")
    ∧ ((fetch_with_fallback [vendorA, vendorB x]).2.map
          (fun u => u.health.consecutive_failures))
        = [vendorA.health.consecutive_failures + 1, 0] := by
  refine ⟨?_, ?_, ?_, rfl, rfl⟩
  · have hs := @List.sorted_mergeSort (Vendor α)
      (fun a b => decide (a.priority ≤ b.priority))
      (fun a b c hab hbc => by
        simp only [decide_eq_true_eq] at hab hbc ⊢
        omega)
      (fun a b => by
        simp only [Bool.or_eq_true, decide_eq_true_eq]
        omega)
      registered
    exact hs.imp (fun hab => by simpa using hab)
  · simp [fetch_with_fallback, hne]
  · intro e0
    rw [fetchLoop_skips_misses ws₁ (v :: ws₂) e0 hfail]
    simp only [fetchLoop, hv]

/-- C1 witness: the short-circuit theorem applied to the concrete
A-raises / B-succeeds scenario. -/
theorem claim_C1_witness :
    (fetch_with_fallback [vendorA, vendorB 7]).1 = .ok (some 7, "B") :=
  (claim_C1 [] [vendorA, vendorB 7] [vendorA] [] (vendorB 7) 7
      (record_success 0 Health.init) 7 (by decide) (by decide)
      (by decide)).2.2.2.1

/-- C2 counterexample: with vendor R raising and vendor N returning
`None` without raising, the fetch re-raises the error of R even though not
every vendor in the working set failed with a raised error — refuting
the claim that an error is raised only when every vendor raised. -/
theorem claim_C2_counterexample :
    (fetch_with_fallback [vendorRaise, vendorNone]).1 = .error "boom"
    ∧ outcomeOf vendorNone = .returns none
    ∧ outcomeOf vendorRaise = .raises "boom" :=
  ⟨rfl, rfl, rfl⟩

/-- C2 (amended): the fetch raises exactly when at least one vendor
raised and no vendor returned a non-`None` result, re-raising the last
captured error; when every vendor completes without raising but
returns `None`, it returns `(absent, "Unknown")` instead. -/
theorem claim_C2 {α : Type} (ws : List (Vendor α)) (e : String) :
    ((fetchLoop ws none).1 = .error e ↔
      (∀ v ∈ ws, isSuccess (outcomeOf v) = false)
      ∧ lastErrorOf ws none = some e)
    ∧ ((∀ v ∈ ws, outcomeOf v = .returns none) →
        fetchLoop ws none = (.ok (none, "Unknown"), ws.map updateV)) := by
  constructor
  · exact fetchLoop_error_iff ws none e
  · intro hall
    have h1 := fetchLoop_skips_misses ws [] none
      (fun u hu => by simp [isFailure, hall u hu])
    rw [List.append_nil] at h1
    rw [h1, lastErrorOf_all_none ws none hall]
    simp [fetchLoop]

/-- C2 witness: two vendors that both return `None` without raising
make the fetch return `(absent, "Unknown")` rather than raising. -/
theorem claim_C2_witness :
    (fetchLoop [vendorNone, vendorNone] (none : Option String)).1
      = .ok (none, "Unknown") := by
  have h := (claim_C2 [vendorNone, vendorNone] "x").2 (by decide)
  rw [h]

/-- C4: when every source is unavailable, the fetch resets every
health of every source (`available = true`, `consecutive_failures = 0`) and
iterates the full list; in particular the first source is re-attempted,
so a non-`None` result from it is returned rather than an immediate
`(absent, "Unknown")`. -/
theorem claim_C4 {α : Type} (sources : List (Vendor α)) (v : Vendor α)
    (rest : List (Vendor α)) (r : α) (h2 : Health)
    (hall : ∀ s ∈ sources, s.health.available = false) :
    fetch_with_fallback sources = fetchLoop (sources.map resetVendor) none
    ∧ (∀ s ∈ sources.map resetVendor,
        s.health.available = true ∧ s.health.consecutive_failures = 0)
    ∧ (sources = v :: rest →
        v.call (resetHealth v.health) = (.returns (some r), h2) →
        (fetch_with_fallback sources).1 = .ok (some r, v.name)) := by
  have hfil : availableSources sources = [] := by
    simp only [availableSources]
    rw [List.filter_eq_nil_iff]
    intro a ha
    simp [hall a ha]
  have h1 : fetch_with_fallback sources
      = fetchLoop (sources.map resetVendor) none := by
    simp [fetch_with_fallback, hfil]
  refine ⟨h1, ?_, ?_⟩
  · intro s hs
    obtain ⟨u, _, rfl⟩ := List.mem_map.mp hs
    simp [resetVendor, resetHealth]
  · intro hsrc hcall
    subst hsrc
    rw [h1]
    simp only [List.map_cons, fetchLoop, resetVendor, hcall]

/-- C4 witness: a single unavailable vendor is reset and re-attempted,
returning its value. -/
theorem claim_C4_witness :
    (fetch_with_fallback [vendorDown 5]).1 = .ok (some 5, "D") :=
  (claim_C4 [vendorDown 5] (vendorDown 5) [] 5 (record_success 0 Health.init)
      (by decide)).2.2 rfl (by decide)

/-- C5: after `set_memory k v cat`, a `get_memory k` strictly before
the stored expiry returns `v` (cache untouched); at or after the
expiry it returns absent, the entry is gone from the map, and the
stats entry count has decreased by one — an expired entry behaves like
an absent one and is evicted lazily at read time. -/
theorem claim_C5 {α : Type} (c : MemoryCache α) (key : String) (v : α)
    (cache_type : String) (t : LocalTime) (setNow getNow : Nat) :
    (getNow < setNow + _get_ttl t cache_type →
      get_memory getNow (set_memory t setNow c key v cache_type) key
        = (some v, set_memory t setNow c key v cache_type))
    ∧ (setNow + _get_ttl t cache_type ≤ getNow →
        (get_memory getNow (set_memory t setNow c key v cache_type) key).1
          = none
        ∧ cacheFind
            (get_memory getNow (set_memory t setNow c key v cache_type)
              key).2 key = none
        ∧ cacheStatsSize
            (get_memory getNow (set_memory t setNow c key v cache_type)
              key).2 + 1
          = cacheStatsSize (set_memory t setNow c key v cache_type)) := by
  have hfind : cacheFind (set_memory t setNow c key v cache_type) key
      = some (v, setNow + _get_ttl t cache_type) := by
    simp [cacheFind, set_memory, List.find?]
  constructor
  · intro hlt
    simp only [get_memory, hfind]
    rw [if_pos hlt]
  · intro hge
    have hmiss : get_memory getNow (set_memory t setNow c key v cache_type)
        key = (none,
          cacheErase (set_memory t setNow c key v cache_type) key) := by
      simp only [get_memory, hfind]
      rw [if_neg (by omega)]
    rw [hmiss]
    refine ⟨rfl, ?_, ?_⟩
    · have hnone : (cacheErase (set_memory t setNow c key v cache_type)
          key).find? (fun e => e.1 == key) = none := by
        rw [List.find?_eq_none]
        intro x hx
        have hmem := (List.mem_filter.mp hx).2
        simp at hmem ⊢
        exact hmem
      simp [cacheFind, hnone]
    · simp only [cacheStatsSize, set_memory, cacheErase, List.filter_cons]
      simp [List.filter_filter]

/-- `_clean_old_requests` keeps a uniform queue whose entries are at
most 60 seconds old. -/
theorem clean_fresh (now : Rat) (k : Nat) (t : Rat) (h : now - t ≤ 60) :
    _clean_old_requests now (List.replicate k t) = List.replicate k t := by
  cases k with
  | zero => rfl
  | succ n =>
    simp only [List.replicate_succ, _clean_old_requests]
    rw [if_neg (not_lt.mpr h)]

/-- `_clean_old_requests` purges a uniform queue that has aged out of
the window. -/
theorem clean_stale (now : Rat) (k : Nat) (t : Rat) (h : 60 < now - t) :
    _clean_old_requests now (List.replicate k t) = [] := by
  induction k with
  | zero => rfl
  | succ n ih =>
    simp only [List.replicate_succ, _clean_old_requests]
    rw [if_pos h]
    exact ih

/-- Up to `limit` back-to-back calls are all admitted immediately, each
appending its timestamp after the purge. -/
theorem callsAt_replicate (limit : Nat) (t : Rat) :
    ∀ k, k ≤ limit → callsAt limit t k = some (List.replicate k t) := by
  intro k
  induction k with
  | zero => intro _; rfl
  | succ n ih =>
    intro hk
    have h1 := ih (by omega)
    simp only [callsAt, h1]
    have hclean := clean_fresh t n t (by simp)
    simp only [waitStep, hclean, List.length_replicate]
    rw [if_pos (show n < limit by omega)]
    simp [List.replicate_succ']

/-- With the window full of fresh entries, the next call computes the
sleep duration `60 - (now - oldest) + 0.1`. -/
theorem waitStep_full (limit : Nat) (t : Rat) (hpos : 0 < limit) :
    waitStep limit t (List.replicate limit t)
      = .sleep (60 - (t - t) + 1 / 10) := by
  have hclean := clean_fresh t limit t (by simp)
  simp only [waitStep, hclean, List.length_replicate]
  rw [if_neg (by omega)]
  cases limit with
  | zero => omega
  | succ n => simp [List.replicate_succ]

/-- After sleeping the computed duration, the loop re-evaluates from
the purge step and admits on the second iteration. -/
theorem waitRun_retry (limit : Nat) (t : Rat) (hpos : 0 < limit) :
    waitRun limit 2 t (List.replicate limit t)
      = some [t + (60 - (t - t) + 1 / 10)] := by
  have hstep := waitStep_full limit t hpos
  simp only [waitRun, hstep]
  rw [if_pos (by simp; norm_num)]
  have hstale : _clean_old_requests (t + (60 - (t - t) + 1 / 10))
      (List.replicate limit t) = [] :=
    clean_stale _ limit t (by simp)
  simp only [waitStep, hstale, List.length_nil]
  rw [if_pos hpos]
  simp

/-- C7: the per-API capacity is the floor of the configured limit times
0.8, with unmapped names falling back to the configured default; with
capacity `limit`, `k ≤ limit` back-to-back calls are all admitted
immediately (each appending its timestamp after the purge), while the
next call sleeps `60 - (now - oldest) + 0.1` seconds and then
re-evaluates from the purge step, admitting on the retry. -/
theorem claim_C7 (limits : List (String × Nat)) (api_name : String)
    (limit : Nat) (t : Rat) (k : Nat) (hk : k ≤ limit) (hpos : 0 < limit) :
    _get_limit limits api_name = specCapacity (baseLimit limits api_name)
    ∧ (limitsGet limits api_name = none →
        baseLimit limits api_name = baseLimit limits "default")
    ∧ callsAt limit t k = some (List.replicate k t)
    ∧ waitStep limit t (List.replicate limit t)
        = .sleep (60 - (t - t) + 1 / 10)
    ∧ waitRun limit 2 t (List.replicate limit t)
        = some [t + (60 - (t - t) + 1 / 10)] := by
  refine ⟨?_, ?_, callsAt_replicate limit t k hk,
    waitStep_full limit t hpos, waitRun_retry limit t hpos⟩
  · have hcast : ((baseLimit limits api_name : ℚ)) * (8 / 10)
        = ((baseLimit limits api_name * 8 : ℕ) : ℚ) / ((10 : ℕ) : ℚ) := by
      push_cast
      ring
    rw [specCapacity, hcast, Nat.floor_div_eq_div]
    rfl
  · intro hmiss
    cases hd : limitsGet limits "default" <;>
      simp [baseLimit, hmiss, hd]

/-- C7 witness: an unmapped API name falls back to the default limit,
and with capacity 2 two back-to-back calls are admitted without a
sleep. -/
theorem claim_C7_witness :
    callsAt 2 (0 : Rat) 2 = some (List.replicate 2 (0 : Rat))
    ∧ limitsGet TUSHARE_RATE_LIMITS "zzz" = none
    ∧ baseLimit TUSHARE_RATE_LIMITS "zzz"
        = baseLimit TUSHARE_RATE_LIMITS "default" := by
  have h := claim_C7 TUSHARE_RATE_LIMITS "zzz" 2 0 2 (by decide) (by decide)
  exact ⟨h.2.2.1, by decide, h.2.1 (by decide)⟩

/-- C5 witness: setting a stock entry in session (TTL 120) and reading
at 100 hits; reading at 120 misses and evicts. -/
theorem claim_C5_witness :
    get_memory 100 (set_memory tradingInstant 0 ([] : MemoryCache Nat)
        "k" 42 "stock") "k"
      = (some 42, set_memory tradingInstant 0 [] "k" 42 "stock")
    ∧ (get_memory 120 (set_memory tradingInstant 0 ([] : MemoryCache Nat)
        "k" 42 "stock") "k").1 = none := by
  refine ⟨(claim_C5 [] "k" 42 "stock" tradingInstant 0 100).1 (by decide),
    ((claim_C5 [] "k" 42 "stock" tradingInstant 0 120).2 (by decide)).1⟩

/-- The dimension loop returns the combined list of the first vendor
(in list order) that yields a non-empty one, paired with its name. -/
theorem dimLoop_first_success {δ : Type} (ws : List (DimVendor δ)) :
    ∀ (v : DimVendor δ) (l : List δ),
      ws.find? dimSucceeds = some v → dimResult v = some l →
      (dimLoop ws).1 = (l, v.name) := by
  induction ws with
  | nil =>
    intro v l hfind _
    simp [List.find?] at hfind
  | cons u rest ih =>
    intro v l hfind hres
    by_cases hu : dimSucceeds u = true
    · rw [List.find?_cons_of_pos rest hu] at hfind
      have huv : u = v := by injection hfind
      subst huv
      rcases hs : u.stockCall u.health with ⟨so, h1⟩
      cases so with
      | error e =>
        simp [dimResult, hs] at hres
      | ok stocks =>
        rcases hf : u.fundCall h1 with ⟨fo, h2⟩
        cases fo with
        | error e =>
          simp [dimResult, hs, hf] at hres
        | ok funds =>
          cases he : (stocks ++ funds).isEmpty with
          | true =>
            simp [dimResult, hs, hf, he] at hres
          | false =>
            have hl : l = stocks ++ funds := by
              simp [dimResult, hs, hf, he] at hres
              exact hres.symm
            subst hl
            simp only [dimLoop, hs, hf]
            rw [if_neg (by simp [he])]
    · rw [List.find?_cons_of_neg rest hu] at hfind
      have hnone : dimResult u = none := by
        cases hdr : dimResult u with
        | none => rfl
        | some x => simp [dimSucceeds, hdr] at hu
      rcases hs : u.stockCall u.health with ⟨so, h1⟩
      cases so with
      | error e =>
        simp only [dimLoop, hs]
        exact ih v l hfind hres
      | ok stocks =>
        rcases hf : u.fundCall h1 with ⟨fo, h2⟩
        cases fo with
        | error e =>
          simp only [dimLoop, hs, hf]
          exact ih v l hfind hres
        | ok funds =>
          have hemp : (stocks ++ funds).isEmpty = true := by
            cases he : (stocks ++ funds).isEmpty with
            | true => rfl
            | false =>
              simp [dimResult, hs, hf, he] at hnone
          simp only [dimLoop, hs, hf]
          rw [if_pos hemp]
          exact ih v l hfind hres

/-- When every vendor in the working list fails (raises in either list
call or yields an empty combined list), the loop ends with
`([], "Unknown")` without raising. -/
theorem dimLoop_all_fail {δ : Type} (ws : List (DimVendor δ)) :
    (∀ v ∈ ws, dimResult v = none) → (dimLoop ws).1 = ([], "Unknown") := by
  induction ws with
  | nil => intro _; rfl
  | cons u rest ih =>
    intro hall
    have hu := hall u (by simp)
    have htail : ∀ v ∈ rest, dimResult v = none :=
      fun v hv => hall v (List.mem_cons_of_mem u hv)
    rcases hs : u.stockCall u.health with ⟨so, h1⟩
    cases so with
    | error e =>
      simp only [dimLoop, hs]
      exact ih htail
    | ok stocks =>
      rcases hf : u.fundCall h1 with ⟨fo, h2⟩
      cases fo with
      | error e =>
        simp only [dimLoop, hs, hf]
        exact ih htail
      | ok funds =>
        have hemp : (stocks ++ funds).isEmpty = true := by
          cases he : (stocks ++ funds).isEmpty with
          | true => rfl
          | false => simp [dimResult, hs, hf, he] at hu
        simp only [dimLoop, hs, hf]
        rw [if_pos hemp]
        exact ih htail

/-- C8: `fetch_dimensions` returns the concatenation of one single
stock list of one single vendor and the fund list of that same vendor
— the first vendor
of the working set (priority order) whose combined list is non-empty —
paired with the name of that vendor; sub-lists of two vendors are never
mixed. -/
theorem claim_C8 {δ : Type} (sources : List (DimVendor δ))
    (v : DimVendor δ) (stocks funds : List δ) (h1 h2 : Health)
    (hfind : (dimWorkingSet sources).find? dimSucceeds = some v)
    (hs : v.stockCall v.health = (.ok stocks, h1))
    (hf : v.fundCall h1 = (.ok funds, h2))
    (hne : (stocks ++ funds).isEmpty = false) :
    (fetch_dimensions sources).1 = (stocks ++ funds, v.name) := by
  have hres : dimResult v = some (stocks ++ funds) := by
    simp [dimResult, hs, hf, hne]
  exact dimLoop_first_success (dimWorkingSet sources) v (stocks ++ funds)
    hfind hres

/-- C8 witness: with a raising vendor first, the result is the second
own stock++fund concatenation of the second vendor and its name. -/
theorem claim_C8_witness :
    (fetch_dimensions [dimVendorRaise, dimVendorGood, dimVendorEmpty]).1
      = ([dimStockRow] ++ [dimFundRow], "G") :=
  claim_C8 [dimVendorRaise, dimVendorGood, dimVendorEmpty] dimVendorGood
    [dimStockRow] [dimFundRow] (record_success 0 Health.init)
    (record_success 0 (record_success 0 Health.init)) rfl rfl rfl rfl

/-- C9: `fetch_dimensions` never propagates a vendor exception — when
every vendor of the working set fails (raising included) it returns
`([], "Unknown")`; and when all vendors are unavailable it iterates the
full list as is, without resetting any health record. -/
theorem claim_C9 {δ : Type} (sources : List (DimVendor δ))
    (hall : ∀ v ∈ dimWorkingSet sources, dimResult v = none) :
    (fetch_dimensions sources).1 = ([], "Unknown")
    ∧ ((∀ s ∈ sources, s.health.available = false) →
        dimWorkingSet sources = sources) := by
  refine ⟨dimLoop_all_fail (dimWorkingSet sources) hall, ?_⟩
  intro hunavail
  have hfil : sources.filter (fun s => s.health.available) = [] := by
    rw [List.filter_eq_nil_iff]
    intro a ha
    simp [hunavail a ha]
  simp [dimWorkingSet, hfil]

/-- C9 witness: a single unavailable vendor whose stock call raises —
the full list is iterated unreset and the call returns
`([], "Unknown")` instead of raising. -/
theorem claim_C9_witness :
    (fetch_dimensions [dimVendorDownRaise]).1 = ([], "Unknown")
    ∧ dimWorkingSet [dimVendorDownRaise] = [dimVendorDownRaise] := by
  have h := claim_C9 [dimVendorDownRaise] (by decide)
  exact ⟨h.1, h.2 (by decide)⟩

end Wert
